import Mathlib

/-!
Shallow embedding of the billing ingestion and query pipeline
(backend/lambda/ingest_data, query_data, update_user_info,
get_user_accounts) together with proofs about its behaviour.

Decimal values are modelled as exact rationals (ℚ).  Python binary
floats, where the source converts decimals to floats, are modelled as the
rationals exactly representable in IEEE binary64, with correctly rounded
conversion and addition (normal range; overflow and subnormals do not
arise at the values considered here).
-/

attribute [local semireducible] Rat.add Rat.mul Rat.inv Rat.sub

instance {ε α : Type} [DecidableEq ε] [DecidableEq α] :
    DecidableEq (Except ε α) := fun a b =>
  match a, b with
  | Except.error e1, Except.error e2 =>
    if h : e1 = e2 then Decidable.isTrue (by rw [h])
    else Decidable.isFalse (fun hc => h (by injection hc))
  | Except.error _, Except.ok _ =>
    Decidable.isFalse (fun hc => Except.noConfusion hc)
  | Except.ok _, Except.error _ =>
    Decidable.isFalse (fun hc => Except.noConfusion hc)
  | Except.ok x, Except.ok y =>
    if h : x = y then Decidable.isTrue (by rw [h])
    else Decidable.isFalse (fun hc => h (by injection hc))

/-! ### String primitives

Character-level models of the Python string operations used by the
handlers (`strip`, one-character `split`, `in`, `lower`, `sorted`),
defined over the character list of a string. -/

/-- Python `s.strip()`: remove leading and trailing whitespace. -/
def trimChars (s : String) : String :=
  String.mk
    (((s.data.dropWhile Char.isWhitespace).reverse.dropWhile
      Char.isWhitespace).reverse)

/-- Split a character list at every occurrence of `sep` (Python
`s.split(sep)` for a one-character separator, keeping empty parts). -/
def splitChars (sep : Char) : List Char → List (List Char)
  | [] => [[]]
  | c :: cs =>
    let r := splitChars sep cs
    if c = sep then [] :: r
    else
      match r with
      | [] => [[c]]
      | h :: t => (c :: h) :: t

/-- Python `s.split(sep)` for a one-character separator. -/
def splitStr (sep : Char) (s : String) : List String :=
  (splitChars sep s.data).map String.mk

/-- Python `c in s` for a single character. -/
def containsChar (s : String) (c : Char) : Bool :=
  s.data.any (fun x => x = c)

/-- Python `s.lower()`. -/
def lowerStr (s : String) : String := String.mk (s.data.map Char.toLower)

/-- Lexicographic comparison of character lists by code point, the order
Python `sorted` uses on strings. -/
def lexLeChars : List Char → List Char → Bool
  | [], _ => true
  | _ :: _, [] => false
  | a :: as, b :: bs => if a < b then true else if b < a then false else lexLeChars as bs

/-- Python string `<=`. -/
def strLe (a b : String) : Bool := lexLeChars a.data b.data

/-- Insert a string into a sorted list of strings. -/
def insertSorted (x : String) : List String → List String
  | [] => [x]
  | y :: ys => if strLe x y then x :: y :: ys else y :: insertSorted x ys

/-- Python `sorted` on a list of strings (insertion sort). -/
def sortStrings : List String → List String
  | [] => []
  | x :: xs => insertSorted x (sortStrings xs)

/-- Attribute values carried by a billing or user item: strings, finite
exact decimals (Python `Decimal`, modelled as ℚ), the non-finite
`Decimal` specials `Infinity`, `-Infinity` and `NaN` (which `Decimal`
parses from strings such as `inf` or `NAN`), or lists of strings.
Non-finite decimals can occur in an item built by the ingest loop but
are rejected by the store client before any write, so they never occur
in a stored record. -/
inductive AttrVal where
  | s (v : String)
  | n (q : ℚ)
  | nInf
  | nNegInf
  | nNaN
  | l (vs : List String)
  deriving Repr, DecidableEq

/-- A stored item: an association list from attribute names to values. -/
abbrev Item := List (String × AttrVal)

/-- Look up an attribute of an item (Python dict access / `in` test). -/
def getAttr (it : Item) (k : String) : Option AttrVal :=
  (it.find? (fun e => e.1 = k)).map (fun e => e.2)

/-- The raw content of one numeric spreadsheet cell as seen by
`row.get(field)` in ingest_data: absent column, empty string, float NaN,
float Infinity, a value `Decimal` converts to a finite number, a
non-empty string `Decimal` parses to `Infinity`, `-Infinity` or `NaN`
(e.g. `inf`, `-Infinity`, `NAN` — pandas leaves these as strings, so
the float NaN/Infinity check does not catch them), or a non-empty
string `Decimal` cannot parse at all. -/
inductive RawValue where
  | missing
  | emptyStr
  | nanVal
  | infVal
  | numVal (q : ℚ)
  | infStr
  | negInfStr
  | nanStr
  | badStr (v : String)
  deriving Repr, DecidableEq

/-- The nine numeric columns checked by ingest_data. -/
def numericFields : List String :=
  ["cost_before_tax", "credits_before_discount", "credits_after_discount",
   "sp_discount", "ubd_discount", "prc_discount", "rvd_discount",
   "edp_discount", "edp_discount_%"]

/-- The four required columns of a billing file. -/
def requiredColumns : List String :=
  ["payer_account_id", "invoice_id", "product_code", "bill_period_start_date"]

/-- The result of `Decimal(str(value))` when it succeeds: a finite
exact value, or one of the non-finite specials `Decimal` parses. -/
inductive Dec where
  | fin (q : ℚ)
  | inf
  | negInf
  | nan
  deriving Repr, DecidableEq

/-- Numeric coercion of one cell, following the ingest loop: a float
NaN or Infinity is first replaced by 0; a value that is `None` or the
empty string is skipped (the attribute is not stored, result `none`);
otherwise `Decimal(str(value))` is attempted, a conversion failure
yielding `Decimal("0")` — while a string such as `inf` or `NAN`
converts successfully to the corresponding non-finite `Decimal`, which
is stored into the item as such. -/
def coerceNumeric : RawValue → Option Dec
  | RawValue.missing => none
  | RawValue.emptyStr => none
  | RawValue.nanVal => some (Dec.fin 0)
  | RawValue.infVal => some (Dec.fin 0)
  | RawValue.numVal q => some (Dec.fin q)
  | RawValue.infStr => some Dec.inf
  | RawValue.negInfStr => some Dec.negInf
  | RawValue.nanStr => some Dec.nan
  | RawValue.badStr _ => some (Dec.fin 0)

/-- Embed a `Decimal` conversion result into an attribute value. -/
def decToAttr : Dec → AttrVal
  | Dec.fin q => AttrVal.n q
  | Dec.inf => AttrVal.nInf
  | Dec.negInf => AttrVal.nNegInf
  | Dec.nan => AttrVal.nNaN

/-- Replacement of every literal `%` in a field name by the word
`percent` (Python `field.replace("%", "percent")` for the
one-character pattern). -/
def sanitizeFieldName (f : String) : String :=
  String.mk (f.data.foldr
    (fun c acc => if c = '%' then "percent".data ++ acc else c :: acc) [])

/-- One parsed spreadsheet row: the four key columns after `str(...)`
coercion, and the raw values of the numeric columns present. -/
structure Row where
  payer_account_id : String
  invoice_id : String
  product_code : String
  bill_period_start_date : String
  nums : List (String × RawValue)
  deriving Repr, DecidableEq

/-- `row.get(field)` on a numeric column: `None` when absent. -/
def rawGet (r : Row) (f : String) : RawValue :=
  ((r.nums.find? (fun e => e.1 = f)).map (fun e => e.2)).getD RawValue.missing

/-- Composite store key: `(payer_account_id, invoice_id#product_code)`. -/
abbrev ItemKey := String × String

/-- The numeric attribute block the ingest loop builds for one row:
one entry per numeric column whose coercion yields a value, with `%`
sanitized out of the attribute name. -/
def numAttrsOf (r : Row) : Item :=
  numericFields.filterMap (fun f =>
    (coerceNumeric (rawGet r f)).map (fun d => (sanitizeFieldName f, decToAttr d)))

/-- The number serializer of the DynamoDB client rejects the non-finite
`Decimal` specials (`TypeError: Infinity and NaN not supported`); every
other attribute value serializes. -/
def serializableVal : AttrVal → Bool
  | AttrVal.nInf => false
  | AttrVal.nNegInf => false
  | AttrVal.nNaN => false
  | _ => true

/-- An item the store client accepts for writing: all attribute values
serialize.  An item carrying a non-finite decimal fails the batch
write, which errors the whole ingest invocation, so such an item never
reaches the record store. -/
def serializableItem (it : Item) : Bool :=
  it.all (fun e => serializableVal e.2)

/-- Build the DynamoDB item for one row, or `none` when a required field
is empty after trimming (the row is counted as an error).  Mirrors the
body of the ingest loop: key attributes, numeric attributes, and the
shared upload timestamp. -/
def buildItem (ts : String) (r : Row) : Option (ItemKey × Item) :=
  let p := trimChars r.payer_account_id
  let inv := trimChars r.invoice_id
  let pc := trimChars r.product_code
  let d := trimChars r.bill_period_start_date
  if p = "" ∨ inv = "" ∨ pc = "" ∨ d = "" then none
  else
    let keyStr := inv ++ "#" ++ pc
    some ((p, keyStr),
      [("payer_account_id", AttrVal.s p),
       ("invoice_id#product_code", AttrVal.s keyStr),
       ("bill_period_start_date", AttrVal.s d),
       ("invoice_id", AttrVal.s inv),
       ("product_code", AttrVal.s pc)]
      ++ numAttrsOf r ++ [("upload_timestamp", AttrVal.s ts)])

/-- Insert into the `unique_items` dict: an existing key keeps its
position and gets the new value, a new key is appended (Python dict
insertion semantics). -/
def insertUnique (m : List (ItemKey × Item)) (k : ItemKey) (it : Item) :
    List (ItemKey × Item) :=
  if m.any (fun e => e.1 = k) then
    m.map (fun e => if e.1 = k then (k, it) else e)
  else m ++ [(k, it)]

/-- One step of the ingest row loop: an invalid row bumps the error
count, a valid one is inserted into the `unique_items` dict. -/
def ingestStep (ts : String) (acc : List (ItemKey × Item) × Nat) (r : Row) :
    List (ItemKey × Item) × Nat :=
  match buildItem ts r with
  | none => (acc.1, acc.2 + 1)
  | some kit => (insertUnique acc.1 kit.1 kit.2, acc.2)

/-- Fold of the ingest row loop: accumulate the `unique_items` dict and
the error count over the rows of the file. -/
def ingestRows (ts : String) (rows : List Row) :
    List (ItemKey × Item) × Nat :=
  rows.foldl (ingestStep ts) ([], 0)

/-- The value of the last entry of an association list carrying a given
key, if any. -/
def lastMatch (k : ItemKey) (l : List (ItemKey × Item)) : Option Item :=
  l.foldl (fun acc en => if en.1 = k then some en.2 else acc) none

/-- Point lookup in an association list (first entry wins). -/
def lookupKey (m : List (ItemKey × Item)) (k : ItemKey) : Option Item :=
  (m.find? (fun e => e.1 = k)).map (fun e => e.2)

/-- The record store: an association list from composite keys to items,
at most one entry per key. -/
abbrev Store := List (ItemKey × Item)

/-- `put_item`: overwrite any existing record under the key. -/
def putItem (s : Store) (k : ItemKey) (it : Item) : Store :=
  if s.any (fun e => e.1 = k) then
    s.map (fun e => if e.1 = k then (k, it) else e)
  else s ++ [(k, it)]

/-- The batch write of all accumulated unique items. -/
def batchWrite (s : Store) (m : List (ItemKey × Item)) : Store :=
  m.foldl (fun acc e => putItem acc e.1 e.2) s

/-- The uploaded file object: its `processed` metadata flag, header
columns, and parsed rows. -/
structure FileObj where
  processedFlag : Bool
  columns : List String
  rows : List Row
  deriving Repr, DecidableEq

/-- Result of one ingestion invocation. -/
structure IngestResult where
  status : String
  processed : Nat
  errors : Nat
  deriving Repr, DecidableEq

/-- The ingest_data lambda handler as a pure state transition on the
file object and the store: skip when already processed, reject when a
required column is missing, otherwise dedup rows by composite key,
batch-write, and mark the file processed.  This models the invocations
whose batch write is accepted by the store client (every accumulated
item `serializableItem`); an item carrying a non-finite decimal makes
the client raise instead, so that invocation ends in the generic 500
error path with the file left unmarked — safe to retry, and nothing of
it reaches the processed-marker or the summary statistics. -/
def ingest_lambda_handler (ts : String) (f : FileObj) (s : Store) :
    IngestResult × FileObj × Store :=
  if f.processedFlag then
    ({ status := "skipped", processed := 0, errors := 0 }, f, s)
  else if requiredColumns.any (fun c => ¬ f.columns.contains c) then
    ({ status := "missing_column", processed := 0, errors := 0 }, f, s)
  else
    let acc := ingestRows ts f.rows
    ({ status := "processed", processed := acc.1.length, errors := acc.2 },
     { f with processedFlag := true },
     batchWrite s acc.1)

/-! ### Binary floating point model

The query side of the source converts `Decimal` values to Python floats
(IEEE binary64) in `DecimalEncoder` and in `summarize_data`.  We model a
binary64 value by the rational it denotes, conversion by correct rounding
to 53 significant bits (round to nearest, ties to even), in the normal
range (no overflow or subnormals, which do not arise at the magnitudes
considered). -/

/-- `2 ^ k` as a rational, for an integer exponent. -/
def pow2 (k : ℤ) : ℚ :=
  if 0 ≤ k then ((2 : ℚ) ^ k.toNat) else ((2 : ℚ) ^ (-k).toNat)⁻¹

/-- Round a rational to the nearest integer, ties to the even integer. -/
def halfEvenZ (x : ℚ) : ℤ :=
  let f := x.floor
  let r := x - (f : ℚ)
  if r < 1/2 then f
  else if 1/2 < r then f + 1
  else if f % 2 = 0 then f else f + 1

/-- Scale a positive rational `q` into `[2^52, 2^53)`, returning the
scaled significand `m` and exponent `e` with `q = m * 2 ^ e`.  Fuelled
structural recursion; the fuel covers the full binary64 exponent range. -/
def normalizeAux : Nat → ℚ → ℤ → ℚ × ℤ
  | 0, q, e => (q, e)
  | fuel + 1, q, e =>
    if q < 2 ^ 52 then normalizeAux fuel (2 * q) (e - 1)
    else if 2 ^ 53 ≤ q then normalizeAux fuel (q / 2) (e + 1)
    else (q, e)

/-- The binary64 value nearest to a rational (ties to even): the model of
Python `float(Decimal(...))` and of the rounding step of float
arithmetic. -/
def nearestDouble (q : ℚ) : ℚ :=
  if q = 0 then 0
  else
    let me := normalizeAux 2200 |q| 0
    (if q < 0 then -1 else 1) * (halfEvenZ me.1 : ℚ) * pow2 me.2

/-- IEEE binary64 addition: the exact sum, correctly rounded. -/
def floatAdd (a b : ℚ) : ℚ := nearestDouble (a + b)

/-- Python `round(x, 2)` on a float `x`: the float nearest to the value
of `x` correctly rounded to two decimal places (ties to even). -/
def pyRound2 (x : ℚ) : ℚ := nearestDouble ((halfEvenZ (x * 100) : ℚ) / 100)

/-- Exact decimal rounding to two decimal places (ties to even): the
reading of the specification, free of any float arithmetic. -/
def decRound2 (x : ℚ) : ℚ := (halfEvenZ (x * 100) : ℚ) / 100

/-- The JSON `DecimalEncoder`: a finite `Decimal` value is serialized
as the float it converts to; other values pass through.  Non-finite
decimals never occur in a stored record (the write path rejects them,
see `serializableItem`), so in responses only the finite case arises. -/
def encodeVal : AttrVal → AttrVal
  | AttrVal.n q => AttrVal.n (nearestDouble q)
  | v => v

/-- `DecimalEncoder` applied to a whole item. -/
def encodeItem (it : Item) : Item := it.map (fun e => (e.1, encodeVal e.2))

/-- `DecimalEncoder` applied to a result list, as in the JSON body. -/
def encodeItems (items : List Item) : List Item := items.map encodeItem

/-! ### Query engine -/

/-- The query-string parameters consumed by the query_data handler;
`none` models an absent parameter. -/
structure QueryParams where
  queryType : Option String
  format : Option String
  accountId : Option String
  invoiceId : Option String
  billPeriodStartDate : Option String
  date : Option String
  product : Option String
  deriving Repr, DecidableEq

/-- A request with no query-string parameters at all. -/
def noParams : QueryParams :=
  { queryType := none, format := none, accountId := none,
    invoiceId := none, billPeriodStartDate := none, date := none,
    product := none }

/-- Python falsiness of an optional string parameter: absent or empty. -/
def isBlank : Option String → Bool
  | none => true
  | some s => s = ""

/-- The items of the store, in store order. -/
def storeItems (s : Store) : List Item := s.map (fun e => e.2)

/-- String-attribute equality test used by key conditions and filter
expressions. -/
def attrIs (it : Item) (k v : String) : Bool :=
  getAttr it k == some (AttrVal.s v)

/-- query_by_account_items: validation of `accountId`, comma fan-out,
and one table query per account id (via the invoice index, the date
index, or the primary key).  The result also carries the number of
store queries issued. -/
def query_by_account_items (s : Store) (p : QueryParams) :
    Except String (List Item × Nat) :=
  if isBlank p.accountId then Except.error "Missing accountId parameter"
  else
    let ids := (splitStr ',' (p.accountId.getD "")).map trimChars
    Except.ok (ids.foldl (fun acc aid =>
      let its :=
        if ¬ isBlank p.invoiceId then
          (storeItems s).filter (fun it =>
            attrIs it "invoice_id" (p.invoiceId.getD "") &&
            attrIs it "payer_account_id" aid)
        else if ¬ isBlank p.billPeriodStartDate then
          (storeItems s).filter (fun it =>
            attrIs it "bill_period_start_date" (p.billPeriodStartDate.getD "") &&
            attrIs it "payer_account_id" aid)
        else
          (storeItems s).filter (fun it => attrIs it "payer_account_id" aid)
      (acc.1 ++ its, acc.2 + 1)) ([], 0))

/-- query_by_date_items: validation of `date`, one query on the date
index, with optional product-code key condition. -/
def query_by_date_items (s : Store) (p : QueryParams) :
    Except String (List Item × Nat) :=
  if isBlank p.date then Except.error "Missing date parameter"
  else
    Except.ok ((storeItems s).filter (fun it =>
      attrIs it "bill_period_start_date" (p.date.getD "") &&
      (isBlank p.product || attrIs it "product_code" (p.product.getD ""))), 1)

/-- query_by_invoice_items: validation of `invoiceId` and one query on
the invoice index. -/
def query_by_invoice_items (s : Store) (p : QueryParams) :
    Except String (List Item × Nat) :=
  if isBlank p.invoiceId then Except.error "Missing invoiceId parameter"
  else
    Except.ok ((storeItems s).filter (fun it =>
      attrIs it "invoice_id" (p.invoiceId.getD "")), 1)

/-- The summary block of a JSON response. -/
structure Summary where
  unique_accounts : Nat
  unique_invoices : Nat
  unique_dates : Nat
  unique_products : Nat
  total_cost : ℚ
  deriving Repr, DecidableEq

/-- Size of the set of values of one attribute over a result list
(items lacking the attribute contribute nothing). -/
def distinctCount (items : List Item) (k : String) : Nat :=
  ((items.filterMap (fun it => getAttr it k)).dedup).length

/-- The float accumulation of `cost_before_tax` in summarize_data:
numeric values are converted to float and added with float addition;
non-numeric or absent values are skipped. -/
def totalCostFloat (items : List Item) : ℚ :=
  items.foldl (fun t it =>
    match getAttr it "cost_before_tax" with
    | some (AttrVal.n q) => floatAdd t (nearestDouble q)
    | _ => t) 0

/-- summarize_data: `none` models the empty dict returned for an empty
result list; otherwise distinct counts and the rounded float total. -/
def summarize_data (items : List Item) : Option Summary :=
  if items.isEmpty then none
  else some
    { unique_accounts := distinctCount items "payer_account_id",
      unique_invoices := distinctCount items "invoice_id",
      unique_dates := distinctCount items "bill_period_start_date",
      unique_products := distinctCount items "product_code",
      total_cost := pyRound2 (totalCostFloat items) }

/-- The five priority CSV columns, in their fixed order. -/
def priorityColumns : List String :=
  ["payer_account_id", "invoice_id", "product_code",
   "bill_period_start_date", "cost_before_tax"]

/-- The set of keys occurring in any returned item. -/
def allKeysOf (items : List Item) : List String :=
  (items.foldl (fun acc it => acc ++ it.map (fun e => e.1)) []).dedup

/-- The CSV header of format_csv_response: priority columns present in
the data first, in priority order, then the remaining keys sorted. -/
def format_csv_fieldnames (items : List Item) : List String :=
  let allKeys := allKeysOf items
  (priorityColumns.filter (fun c => allKeys.contains c)) ++
    sortStrings (allKeys.filter (fun k => ¬ priorityColumns.contains k))

/-- Outcome of one query_data invocation (OPTIONS preflight aside). -/
inductive HandlerResult where
  | jsonOk (items : List Item) (count : Nat) (summary : Option Summary)
  | csvOk (fieldnames : List String)
  | error (code : Nat) (msg : String) (validTypes : Option (List String))
  deriving Repr, DecidableEq

/-- The query_data lambda handler: defaulting of `queryType` to
`account` and of `format` to `json`, validation of the query type
against the three valid values, dispatch, and response shaping.  The
second component counts the store queries issued by the invocation. -/
def query_lambda_handler (s : Store) (p : QueryParams) :
    HandlerResult × Nat :=
  let qt := p.queryType.getD "account"
  let fmt := p.format.getD "json"
  if qt ≠ "account" ∧ qt ≠ "date" ∧ qt ≠ "invoice" then
    (HandlerResult.error 400 ("Invalid query type: " ++ qt)
      (some ["account", "date", "invoice"]), 0)
  else
    let r :=
      if qt = "account" then query_by_account_items s p
      else if qt = "date" then query_by_date_items s p
      else query_by_invoice_items s p
    match r with
    | Except.error msg => (HandlerResult.error 400 msg none, 0)
    | Except.ok itsn =>
      if lowerStr fmt = "csv" then
        (HandlerResult.csvOk (format_csv_fieldnames itsn.1), itsn.2)
      else
        (HandlerResult.jsonOk itsn.1 itsn.1.length (summarize_data itsn.1),
         itsn.2)

/-! ### User-access mapper -/

/-- One row of a user-access CSV after header cleaning: the values of
the `email` and `payer_account_id` columns, when present. -/
structure UserRow where
  email : Option String
  payer_account_id : Option String
  deriving Repr, DecidableEq

/-- The user-info table: at most one record per email. -/
abbrev UStore := List (String × List String)

/-- `put_item` on the user-info table: full replace of the record. -/
def putUser (s : UStore) (e : String) (ids : List String) : UStore :=
  if s.any (fun x => x.1 = e) then
    s.map (fun x => if x.1 = e then (e, ids) else x)
  else s ++ [(e, ids)]

/-- Split a `payer_account_id` cell on `;` and trim each part; order is
kept and duplicates are not removed. -/
def splitAccountIds (v : String) : List String :=
  (splitStr ';' v).map trimChars

/-- Processing of one user-access CSV row: rows with a missing column,
an empty trimmed value, or an email without `@` are skipped; a valid
row replaces the record of its email. -/
def processUserRow (s : UStore) (r : UserRow) : UStore :=
  match r.email, r.payer_account_id with
  | some ev, some pv =>
    let email := trimChars ev
    let ids := trimChars pv
    if email = "" || ids = "" then s
    else if ¬ containsChar email '@' then s
    else putUser s email (splitAccountIds ids)
  | _, _ => s

/-- The update_user_info handler over the rows of one uploaded file. -/
def update_user_info_handler (s : UStore) (rows : List UserRow) : UStore :=
  rows.foldl processUserRow s

/-- Outcome of a get_user_accounts lookup. -/
inductive UserLookupResult where
  | badRequest (msg : String)
  | notFound (msg : String)
  | ok (email : String) (ids : List String)
  deriving Repr, DecidableEq

/-- The get_user_accounts handler: missing email is a 400, an absent
record a 404, otherwise the stored list is returned. -/
def get_user_accounts_handler (s : UStore) (email : Option String) :
    UserLookupResult :=
  if isBlank email then UserLookupResult.badRequest "Missing email parameter"
  else
    match s.find? (fun x => x.1 = email.getD "") with
    | none => UserLookupResult.notFound "No accounts found"
    | some x => UserLookupResult.ok (email.getD "") x.2

example :
    coerceNumeric (RawValue.numVal (5/2)) = some (Dec.fin (5/2)) ∧
    coerceNumeric RawValue.emptyStr = none ∧
    coerceNumeric RawValue.nanVal = some (Dec.fin 0) ∧
    coerceNumeric RawValue.infStr = some Dec.inf := by
  exact ⟨rfl, rfl, rfl, rfl⟩

example : sanitizeFieldName "edp_discount_%" = "edp_discount_percent" := by
  decide

/-! ### Concrete test data builders -/

/-- A row with the four key fields and one `cost_before_tax` cell. -/
def mkRow (p inv pc d : String) (cost : RawValue) : Row :=
  { payer_account_id := p, invoice_id := inv, product_code := pc,
    bill_period_start_date := d, nums := [("cost_before_tax", cost)] }

/-- An unprocessed file with the required header and the given rows. -/
def mkFile (rows : List Row) : FileObj :=
  { processedFlag := false, columns := requiredColumns, rows := rows }

/-! ### Theorems -/

/-- C1: a file whose metadata already says `processed` is skipped with no
store writes; and after a completed first run (which marks the file
processed), a second run of the handler is a skip leaving the store and
the file exactly as the first run left them. -/
theorem ingestion_idempotent (ts ts2 : String) (f : FileObj) (s : Store) :
    (f.processedFlag = true →
      ingest_lambda_handler ts f s =
        ({ status := "skipped", processed := 0, errors := 0 }, f, s)) ∧
    (f.processedFlag = false →
      requiredColumns.any (fun c => ¬ f.columns.contains c) = false →
      (ingest_lambda_handler ts f s).1.status = "processed" ∧
      ingest_lambda_handler ts2 (ingest_lambda_handler ts f s).2.1
          (ingest_lambda_handler ts f s).2.2 =
        ({ status := "skipped", processed := 0, errors := 0 },
         (ingest_lambda_handler ts f s).2.1,
         (ingest_lambda_handler ts f s).2.2)) := by
  constructor
  · intro h
    simp [ingest_lambda_handler, h]
  · intro h hc
    have h1 : ingest_lambda_handler ts f s =
        ({ status := "processed", processed := (ingestRows ts f.rows).1.length,
           errors := (ingestRows ts f.rows).2 },
         { f with processedFlag := true },
         batchWrite s (ingestRows ts f.rows).1) := by
      unfold ingest_lambda_handler
      rw [if_neg (by simp [h]),
        if_neg (show ¬ _ = true by rw [hc]; exact Bool.false_ne_true)]
    refine ⟨by rw [h1], ?_⟩
    rw [h1]
    simp [ingest_lambda_handler]

/-- C1 witness: the skip law at a concrete already-processed file, and
the two-run law at a concrete one-row file. -/
theorem ingestion_idempotent_witness :
    ingest_lambda_handler "T"
        { processedFlag := true, columns := requiredColumns,
          rows := [mkRow "ACC1" "INV1" "EC2" "2023-01-01"
            (RawValue.numVal (201/2))] } [] =
      ({ status := "skipped", processed := 0, errors := 0 },
       { processedFlag := true, columns := requiredColumns,
         rows := [mkRow "ACC1" "INV1" "EC2" "2023-01-01"
           (RawValue.numVal (201/2))] }, []) ∧
    (ingest_lambda_handler "T" (mkFile [mkRow "ACC1" "INV1" "EC2" "2023-01-01"
        (RawValue.numVal (201/2))]) []).1.status = "processed" ∧
    ingest_lambda_handler "T2"
        (ingest_lambda_handler "T" (mkFile [mkRow "ACC1" "INV1" "EC2" "2023-01-01"
          (RawValue.numVal (201/2))]) []).2.1
        (ingest_lambda_handler "T" (mkFile [mkRow "ACC1" "INV1" "EC2" "2023-01-01"
          (RawValue.numVal (201/2))]) []).2.2 =
      ({ status := "skipped", processed := 0, errors := 0 },
       (ingest_lambda_handler "T" (mkFile [mkRow "ACC1" "INV1" "EC2" "2023-01-01"
         (RawValue.numVal (201/2))]) []).2.1,
       (ingest_lambda_handler "T" (mkFile [mkRow "ACC1" "INV1" "EC2" "2023-01-01"
         (RawValue.numVal (201/2))]) []).2.2) :=
  ⟨(ingestion_idempotent "T" "T2"
      { processedFlag := true, columns := requiredColumns,
        rows := [mkRow "ACC1" "INV1" "EC2" "2023-01-01"
          (RawValue.numVal (201/2))] } []).1 rfl,
   (ingestion_idempotent "T" "T2"
      (mkFile [mkRow "ACC1" "INV1" "EC2" "2023-01-01" (RawValue.numVal (201/2))])
      []).2 rfl (by decide)⟩

/-- C6: an account query with a missing or empty `accountId` returns the
400 validation error, and the invocation issues no store query at all
(the access count is 0). -/
theorem account_query_missing_id (s : Store) (p : QueryParams)
    (hqt : p.queryType = none ∨ p.queryType = some "account")
    (ha : isBlank p.accountId = true) :
    query_lambda_handler s p =
      (HandlerResult.error 400 "Missing accountId parameter" none, 0) := by
  have hqt2 : p.queryType.getD "account" = "account" := by
    rcases hqt with h | h <;> simp [h]
  simp [query_lambda_handler, hqt2, query_by_account_items, ha]

/-- C9: an absent queryType is treated as `account` (a request carrying
only `accountId` succeeds with a JSON result), and the validation error
naming the set of valid query types arises only when queryType is
present with a value outside that set. -/
theorem query_type_default (s : Store) :
    (∀ p : QueryParams, p.queryType = none →
      query_lambda_handler s p =
        query_lambda_handler s { p with queryType := some "account" }) ∧
    (∀ aid : String, aid ≠ "" →
      ∃ its n sm,
        query_lambda_handler s { noParams with accountId := some aid } =
          (HandlerResult.jsonOk its its.length sm, n)) ∧
    (∀ (p : QueryParams) (m : String),
      (query_lambda_handler s p).1 =
        HandlerResult.error 400 m (some ["account", "date", "invoice"]) →
      ∃ qt, p.queryType = some qt ∧
        qt ≠ "account" ∧ qt ≠ "date" ∧ qt ≠ "invoice") := by
  refine ⟨?_, ?_, ?_⟩
  · intro p h
    obtain ⟨qt, fmt, aid, iid, bpd, dt, pr⟩ := p
    cases h
    rfl
  · intro aid ha
    have hb : isBlank (some aid) = false := by simp [isBlank, ha]
    simp [query_lambda_handler, query_by_account_items, noParams, hb,
      show lowerStr "json" ≠ "csv" from by decide]
  · intro p m h
    by_cases hval : p.queryType.getD "account" ≠ "account" ∧
        p.queryType.getD "account" ≠ "date" ∧
        p.queryType.getD "account" ≠ "invoice"
    · refine ⟨p.queryType.getD "account", ?_, hval.1, hval.2.1, hval.2.2⟩
      cases hq : p.queryType with
      | none => exact absurd (by simp [hq]) hval.1
      | some v => simp [hq]
    · exfalso
      simp only [query_lambda_handler] at h
      rw [if_neg hval] at h
      split at h
      next msg heq => simp at h
      next itsn heq =>
        split at h <;> simp at h

/-- C9 witness: a request with queryType absent and only `accountId`
present succeeds, and a request with queryType `bogus` produces the
error naming the valid set, with `bogus` outside it. -/
theorem query_type_default_witness :
    query_lambda_handler [] noParams =
      query_lambda_handler [] { noParams with queryType := some "account" } ∧
    (∃ its n sm,
      query_lambda_handler [] { noParams with accountId := some "ACC1" } =
        (HandlerResult.jsonOk its its.length sm, n)) ∧
    (∃ qt, ({ noParams with queryType := some "bogus" } : QueryParams).queryType
        = some qt ∧ qt ≠ "account" ∧ qt ≠ "date" ∧ qt ≠ "invoice") :=
  ⟨(query_type_default []).1 noParams rfl,
   (query_type_default []).2.1 "ACC1" (by decide),
   (query_type_default []).2.2 { noParams with queryType := some "bogus" }
     "Invalid query type: bogus" (by decide)⟩

/-- C6 witness: the missing-accountId error at a concrete request. -/
theorem account_query_missing_id_witness :
    query_lambda_handler [] noParams =
      (HandlerResult.error 400 "Missing accountId parameter" none, 0) :=
  account_query_missing_id [] noParams (Or.inl rfl) (by decide)

/-- Scanning the numeric attribute block for a name that no field of
`fs` sanitizes to finds nothing, whatever the cell contents are. -/
theorem find_numAttrs_not_mem (r : Row) (fs : List String) (t : String)
    (h : ∀ f ∈ fs, sanitizeFieldName f ≠ t) :
    (fs.filterMap (fun f => (coerceNumeric (rawGet r f)).map
        (fun d => (sanitizeFieldName f, decToAttr d)))).find?
      (fun e => e.1 = t) = none := by
  induction fs with
  | nil => rfl
  | cons g gs ih =>
    cases hc : coerceNumeric (rawGet r g) with
    | none =>
      simp only [List.filterMap_cons, hc, Option.map_none']
      exact ih (fun f hf => h f (List.mem_cons_of_mem g hf))
    | some q =>
      simp only [List.filterMap_cons, hc, Option.map_some']
      rw [List.find?_cons_of_neg]
      · exact ih (fun f hf => h f (List.mem_cons_of_mem g hf))
      · simp [h g (List.mem_cons_self g gs)]

/-- Scanning the numeric attribute block for the sanitized name of a
field of `fs` yields exactly that field's coerced value (the sanitized
names of `fs` being distinct). -/
theorem find_numAttrs_mem (r : Row) (fs : List String) (f : String)
    (hmem : f ∈ fs) (hnd : (fs.map sanitizeFieldName).Nodup) :
    (fs.filterMap (fun g => (coerceNumeric (rawGet r g)).map
        (fun d => (sanitizeFieldName g, decToAttr d)))).find?
      (fun e => e.1 = sanitizeFieldName f) =
    (coerceNumeric (rawGet r f)).map
      (fun d => (sanitizeFieldName f, decToAttr d)) := by
  induction fs with
  | nil => cases hmem
  | cons g gs ih =>
    simp only [List.map_cons, List.nodup_cons] at hnd
    rcases List.mem_cons.mp hmem with rfl | hmem2
    · cases hc : coerceNumeric (rawGet r f) with
      | none =>
        simp only [List.filterMap_cons, hc, Option.map_none']
        exact find_numAttrs_not_mem r gs _
          (fun g2 hg2 hgeq => hnd.1 (hgeq ▸ List.mem_map_of_mem sanitizeFieldName hg2))
      | some q =>
        simp only [List.filterMap_cons, hc, Option.map_some']
        simp
    · have hne : sanitizeFieldName g ≠ sanitizeFieldName f := by
        intro he
        exact hnd.1 (he ▸ List.mem_map_of_mem sanitizeFieldName hmem2)
      cases hc : coerceNumeric (rawGet r g) with
      | none =>
        simp only [List.filterMap_cons, hc, Option.map_none']
        exact ih hmem2 hnd.2
      | some q =>
        simp only [List.filterMap_cons, hc, Option.map_some']
        rw [List.find?_cons_of_neg]
        · exact ih hmem2 hnd.2
        · simp [hne]

/-- Looking up an attribute of a built item at a name that is none of
the six fixed attribute names reduces to scanning the numeric block. -/
theorem getAttr_built (ts t b1 b2 b3 b4 b5 : String) (r : Row)
    (h1 : t ≠ "payer_account_id") (h2 : t ≠ "invoice_id#product_code")
    (h3 : t ≠ "bill_period_start_date") (h4 : t ≠ "invoice_id")
    (h5 : t ≠ "product_code") (h6 : t ≠ "upload_timestamp") :
    getAttr
      ([("payer_account_id", AttrVal.s b1),
        ("invoice_id#product_code", AttrVal.s b2),
        ("bill_period_start_date", AttrVal.s b3),
        ("invoice_id", AttrVal.s b4),
        ("product_code", AttrVal.s b5)]
       ++ numAttrsOf r ++ [("upload_timestamp", AttrVal.s ts)]) t =
    ((numAttrsOf r).find? (fun e => e.1 = t)).map (fun e => e.2) := by
  have hbase : List.find? (fun e => decide (e.1 = t))
      ([("payer_account_id", AttrVal.s b1),
        ("invoice_id#product_code", AttrVal.s b2),
        ("bill_period_start_date", AttrVal.s b3),
        ("invoice_id", AttrVal.s b4),
        ("product_code", AttrVal.s b5)] : Item) = none := by
    rw [List.find?_eq_none]
    intro x hx
    fin_cases hx <;>
      simp [Ne.symm h1, Ne.symm h2, Ne.symm h3, Ne.symm h4, Ne.symm h5]
  have hup : List.find? (fun e => decide (e.1 = t))
      ([("upload_timestamp", AttrVal.s ts)] : Item) = none := by
    rw [List.find?_eq_none]
    intro x hx
    fin_cases hx <;> simp [Ne.symm h6]
  simp only [getAttr, List.find?_append, hbase, hup, Option.none_or]
  cases hm : (numAttrsOf r).find? (fun e => e.1 = t) <;> simp [hm]

/-- For an accepted row, each numeric attribute of the built item is
exactly the coercion of the corresponding cell: present iff the
coercion yields a value. -/
theorem getAttr_buildItem_numeric (ts : String) (r : Row) (k : ItemKey)
    (it : Item) (hb : buildItem ts r = some (k, it))
    (f : String) (hf : f ∈ numericFields) :
    getAttr it (sanitizeFieldName f) =
      (coerceNumeric (rawGet r f)).map decToAttr := by
  have hne : sanitizeFieldName f ≠ "payer_account_id" ∧
      sanitizeFieldName f ≠ "invoice_id#product_code" ∧
      sanitizeFieldName f ≠ "bill_period_start_date" ∧
      sanitizeFieldName f ≠ "invoice_id" ∧
      sanitizeFieldName f ≠ "product_code" ∧
      sanitizeFieldName f ≠ "upload_timestamp" := by
    have : ∀ g ∈ numericFields, sanitizeFieldName g ≠ "payer_account_id" ∧
        sanitizeFieldName g ≠ "invoice_id#product_code" ∧
        sanitizeFieldName g ≠ "bill_period_start_date" ∧
        sanitizeFieldName g ≠ "invoice_id" ∧
        sanitizeFieldName g ≠ "product_code" ∧
        sanitizeFieldName g ≠ "upload_timestamp" := by decide
    exact this f hf
  simp only [buildItem] at hb
  split at hb
  · exact Option.noConfusion hb
  · injection hb with hb2
    injection hb2 with hk hit
    subst hit
    rw [getAttr_built ts _ _ _ _ _ _ r hne.1 hne.2.1 hne.2.2.1 hne.2.2.2.1
      hne.2.2.2.2.1 hne.2.2.2.2.2]
    simp only [numAttrsOf]
    rw [find_numAttrs_mem r numericFields f hf (by decide)]
    cases hc : coerceNumeric (rawGet r f) <;> simp

/-! ### Dictionary lemmas for the ingest fold -/

theorem find_map_replace_ne (m : List (ItemKey × Item)) (k k2 : ItemKey)
    (it : Item) (h : k ≠ k2) :
    (m.map (fun e => if e.1 = k then (k, it) else e)).find?
        (fun e => e.1 = k2) =
      m.find? (fun e => e.1 = k2) := by
  induction m with
  | nil => rfl
  | cons e m ih =>
    by_cases he : e.1 = k
    · have h2 : ¬ (e.1 = k2) := by rw [he]; exact h
      rw [List.map_cons, if_pos he]
      rw [List.find?_cons_of_neg _ (by simpa using h),
        List.find?_cons_of_neg _ (by simpa using h2)]
      exact ih
    · simp only [List.map_cons]
      rw [if_neg he]
      by_cases hk2 : e.1 = k2
      · rw [List.find?_cons_of_pos _ (by simpa using hk2),
          List.find?_cons_of_pos _ (by simpa using hk2)]
      · rw [List.find?_cons_of_neg _ (by simpa using hk2),
          List.find?_cons_of_neg _ (by simpa using hk2)]
        exact ih

theorem find_map_replace_eq (m : List (ItemKey × Item)) (k : ItemKey)
    (it : Item) (hmem : m.any (fun e => e.1 = k) = true) :
    (m.map (fun e => if e.1 = k then (k, it) else e)).find?
        (fun e => e.1 = k) = some (k, it) := by
  induction m with
  | nil => cases hmem
  | cons e m ih =>
    by_cases he : e.1 = k
    · simp only [List.map_cons]
      rw [if_pos he]
      rw [List.find?_cons_of_pos _ (by simp)]
    · have hm : m.any (fun e => e.1 = k) = true := by
        simpa [he] using hmem
      simp only [List.map_cons]
      rw [if_neg he]
      rw [List.find?_cons_of_neg _ (by simpa using he)]
      exact ih hm

/-- Lookup after a dict insert: the inserted key now maps to the new
item, every other key is untouched. -/
theorem lookup_insertUnique (m : List (ItemKey × Item)) (k k2 : ItemKey)
    (it : Item) :
    lookupKey (insertUnique m k it) k2 =
      if k = k2 then some it else lookupKey m k2 := by
  by_cases hany : m.any (fun e => e.1 = k)
  · unfold insertUnique
    rw [if_pos hany]
    by_cases hk : k = k2
    · subst hk
      unfold lookupKey
      rw [find_map_replace_eq m k it hany]
      simp
    · unfold lookupKey
      rw [find_map_replace_ne m k k2 it hk, if_neg hk]
  · unfold insertUnique
    rw [if_neg hany]
    unfold lookupKey
    rw [List.find?_append]
    by_cases hk : k = k2
    · subst hk
      have hnone : m.find? (fun e => decide (e.1 = k)) = none := by
        rw [List.find?_eq_none]
        intro x hx
        simp only [List.any_eq_true] at hany
        simpa using fun hxe => hany ⟨x, hx, by simpa using hxe⟩
      rw [hnone]
      simp
    · have hone : ([(k, it)] : List (ItemKey × Item)).find?
          (fun e => decide (e.1 = k2)) = none := by
        simp [hk]
      rw [hone, if_neg hk]
      cases m.find? (fun e => decide (e.1 = k2)) <;> rfl

/-- Lookup through the whole ingest fold, from an arbitrary accumulator:
later valid rows override earlier ones, entry by entry. -/
theorem ingest_fold_lookup (ts : String) (rows : List Row)
    (init : List (ItemKey × Item) × Nat) (k : ItemKey) :
    lookupKey (rows.foldl (ingestStep ts) init).1 k =
      (rows.filterMap (buildItem ts)).foldl
        (fun acc en => if en.1 = k then some en.2 else acc)
        (lookupKey init.1 k) := by
  induction rows generalizing init with
  | nil => rfl
  | cons r rest ih =>
    rw [List.foldl_cons]
    cases hb : buildItem ts r with
    | none =>
      rw [List.filterMap_cons_none hb]
      simp only [ingestStep, hb]
      exact ih (init.1, init.2 + 1)
    | some kit =>
      rw [List.filterMap_cons_some hb, List.foldl_cons]
      simp only [ingestStep, hb]
      rw [ih, lookup_insertUnique]

/-- The key list of the dict after an insert: unchanged when the key was
present, extended by the key otherwise. -/
theorem keys_insertUnique (m : List (ItemKey × Item)) (k : ItemKey) (it : Item) :
    (insertUnique m k it).map (fun e => e.1) =
      if m.any (fun e => e.1 = k) then m.map (fun e => e.1)
      else m.map (fun e => e.1) ++ [k] := by
  unfold insertUnique
  split
  · rw [List.map_map]
    refine List.map_congr_left ?_
    intro e he
    by_cases h : e.1 = k
    · simp [h]
    · simp [h]
  · simp

theorem nodup_keys_insertUnique (m : List (ItemKey × Item)) (k : ItemKey)
    (it : Item) (h : (m.map (fun e => e.1)).Nodup) :
    ((insertUnique m k it).map (fun e => e.1)).Nodup := by
  rw [keys_insertUnique]
  split
  · exact h
  · next hany =>
    have hk : k ∉ m.map (fun e => e.1) := by
      intro hmem
      rcases List.mem_map.mp hmem with ⟨e, hem, hek⟩
      exact hany (List.any_eq_true.mpr ⟨e, hem, by simpa using hek⟩)
    simp [List.nodup_append, h, hk]

theorem mem_keys_insertUnique (m : List (ItemKey × Item)) (k : ItemKey)
    (it : Item) : k ∈ (insertUnique m k it).map (fun e => e.1) := by
  rw [keys_insertUnique]
  split
  · next hany =>
    rcases List.any_eq_true.mp hany with ⟨e, hem, hek⟩
    exact List.mem_map.mpr ⟨e, hem, by simpa using hek⟩
  · simp

theorem keys_insertUnique_superset (m : List (ItemKey × Item)) (k2 : ItemKey)
    (it : Item) (k : ItemKey) (h : k ∈ m.map (fun e => e.1)) :
    k ∈ (insertUnique m k2 it).map (fun e => e.1) := by
  rw [keys_insertUnique]
  split
  · exact h
  · exact List.mem_append_left _ h

theorem len_insertUnique_le (m : List (ItemKey × Item)) (k : ItemKey)
    (it : Item) : (insertUnique m k it).length ≤ m.length + 1 := by
  unfold insertUnique
  split <;> simp

theorem len_insertUnique_mem (m : List (ItemKey × Item)) (k : ItemKey)
    (it : Item) (h : m.any (fun e => e.1 = k) = true) :
    (insertUnique m k it).length = m.length := by
  unfold insertUnique
  rw [if_pos h]
  simp

theorem step_len_err_le (ts : String) (init : List (ItemKey × Item) × Nat)
    (r : Row) :
    (ingestStep ts init r).1.length + (ingestStep ts init r).2 ≤
      init.1.length + init.2 + 1 := by
  cases hb : buildItem ts r with
  | none => simp only [ingestStep, hb]; omega
  | some kit =>
    simp only [ingestStep, hb]
    have := len_insertUnique_le init.1 kit.1 kit.2
    omega

theorem fold_len_err_le (ts : String) (rows : List Row)
    (init : List (ItemKey × Item) × Nat) :
    (rows.foldl (ingestStep ts) init).1.length +
        (rows.foldl (ingestStep ts) init).2 ≤
      init.1.length + init.2 + rows.length := by
  induction rows generalizing init with
  | nil => simp
  | cons r rest ih =>
    rw [List.foldl_cons]
    have h1 := ih (ingestStep ts init r)
    have h2 := step_len_err_le ts init r
    simp only [List.length_cons]
    omega

theorem fold_keys_mono (ts : String) (rows : List Row)
    (init : List (ItemKey × Item) × Nat) (k : ItemKey)
    (h : k ∈ init.1.map (fun e => e.1)) :
    k ∈ (rows.foldl (ingestStep ts) init).1.map (fun e => e.1) := by
  induction rows generalizing init with
  | nil => exact h
  | cons r rest ih =>
    rw [List.foldl_cons]
    apply ih
    cases hb : buildItem ts r with
    | none => simp only [ingestStep, hb]; exact h
    | some kit =>
      simp only [ingestStep, hb]
      exact keys_insertUnique_superset _ _ _ _ h

theorem fold_nodup_keys (ts : String) (rows : List Row)
    (init : List (ItemKey × Item) × Nat)
    (h : (init.1.map (fun e => e.1)).Nodup) :
    ((rows.foldl (ingestStep ts) init).1.map (fun e => e.1)).Nodup := by
  induction rows generalizing init with
  | nil => exact h
  | cons r rest ih =>
    rw [List.foldl_cons]
    apply ih
    cases hb : buildItem ts r with
    | none => simp only [ingestStep, hb]; exact h
    | some kit =>
      simp only [ingestStep, hb]
      exact nodup_keys_insertUnique _ _ _ h

theorem fold_strict (ts : String) (rows : List Row)
    (init : List (ItemKey × Item) × Nat) (r2 : Row) (k2 : ItemKey) (it2 : Item)
    (hmem : r2 ∈ rows) (hb2 : buildItem ts r2 = some (k2, it2))
    (hk : k2 ∈ init.1.map (fun e => e.1)) :
    (rows.foldl (ingestStep ts) init).1.length +
        (rows.foldl (ingestStep ts) init).2 <
      init.1.length + init.2 + rows.length := by
  induction rows generalizing init with
  | nil => cases hmem
  | cons r rest ih =>
    rw [List.foldl_cons]
    rcases List.mem_cons.mp hmem with rfl | hmem2
    · have hany : init.1.any (fun e => e.1 = k2) = true := by
        rcases List.mem_map.mp hk with ⟨e, hem, hek⟩
        exact List.any_eq_true.mpr ⟨e, hem, by simpa using hek⟩
      have hlen : (ingestStep ts init r2).1.length = init.1.length := by
        simp only [ingestStep, hb2]
        exact len_insertUnique_mem init.1 k2 it2 hany
      have herr : (ingestStep ts init r2).2 = init.2 := by
        simp only [ingestStep, hb2]
      have h1 := fold_len_err_le ts rest (ingestStep ts init r2)
      rw [hlen, herr] at h1
      simp only [List.length_cons]
      omega
    · have hkeys : k2 ∈ (ingestStep ts init r).1.map (fun e => e.1) := by
        cases hb : buildItem ts r with
        | none => simp only [ingestStep, hb]; exact hk
        | some kit =>
          simp only [ingestStep, hb]
          exact keys_insertUnique_superset _ _ _ _ hk
      have h1 := ih (ingestStep ts init r) hmem2 hkeys
      have h2 := step_len_err_le ts init r
      simp only [List.length_cons]
      omega

/-- C2 (amended): the `unique_items` batch carries pairwise distinct
composite keys (so at most one record per key), and the record under a
key is the item of the last valid row whose `(trimmed payer,
invoice_id#product_code)` pair equals that key.  When no other row joins
to the same composite string, that is the last row with the identical
`(payer, invoice, product)` triple. -/
theorem dedup_last_write_wins (ts : String) (rows : List Row) (k : ItemKey) :
    ((ingestRows ts rows).1.map (fun e => e.1)).Nodup ∧
    lookupKey (ingestRows ts rows).1 k =
      lastMatch k (rows.filterMap (buildItem ts)) := by
  constructor
  · exact fold_nodup_keys ts rows ([], 0) (by simp)
  · exact ingest_fold_lookup ts rows ([], 0) k

set_option maxRecDepth 100000 in
/-- C2 counterexample: ids containing `#` make two different triples
join to the same composite key, so the stored record under the key
`(p, a#b#c)` is not the item of the last row with the identical triple
`(p, a#b, c)` (cost 2) but that of a later row with triple
`(p, a, b#c)` (cost 3). -/
theorem dedup_claim_counterexample :
    ((ingestRows "T" [mkRow "p" "a#b" "c" "d" (RawValue.numVal 1),
        mkRow "p" "a#b" "c" "d" (RawValue.numVal 2),
        mkRow "p" "a" "b#c" "d" (RawValue.numVal 3)]).1.map (fun e => e.1)) =
      [("p", "a#b#c")] ∧
    (lookupKey (ingestRows "T" [mkRow "p" "a#b" "c" "d" (RawValue.numVal 1),
        mkRow "p" "a#b" "c" "d" (RawValue.numVal 2),
        mkRow "p" "a" "b#c" "d" (RawValue.numVal 3)]).1 ("p", "a#b#c")).map
      (fun it => getAttr it "cost_before_tax") = some (some (AttrVal.n 3)) ∧
    lookupKey (ingestRows "T" [mkRow "p" "a#b" "c" "d" (RawValue.numVal 1),
        mkRow "p" "a#b" "c" "d" (RawValue.numVal 2),
        mkRow "p" "a" "b#c" "d" (RawValue.numVal 3)]).1 ("p", "a#b#c") ≠
      (buildItem "T" (mkRow "p" "a#b" "c" "d" (RawValue.numVal 2))).map
        (fun e => e.2) := by
  refine ⟨by decide, by decide, by decide⟩

/-- A successful (non-skipped, schema-valid) ingest run: the returned
statistics, the processed marker, and the batch write, in one equation. -/
theorem ingest_run (ts : String) (f : FileObj) (s : Store)
    (hflag : f.processedFlag = false)
    (hcols : requiredColumns.any (fun c => ¬ f.columns.contains c) = false) :
    ingest_lambda_handler ts f s =
      ({ status := "processed", processed := (ingestRows ts f.rows).1.length,
         errors := (ingestRows ts f.rows).2 },
       { f with processedFlag := true },
       batchWrite s (ingestRows ts f.rows).1) := by
  unfold ingest_lambda_handler
  rw [if_neg (by simp [hflag]),
    if_neg (show ¬ _ = true by rw [hcols]; exact Bool.false_ne_true)]

/-- C10: the `processed` statistic counts the distinct composite keys
written (the batch keys are pairwise distinct), not the valid rows
parsed; hence a file with two valid rows sharing a composite key has
`processed + errors` strictly below its number of data rows. -/
theorem statistics_count_unique_keys (ts : String) (f : FileObj) (s : Store)
    (hflag : f.processedFlag = false)
    (hcols : requiredColumns.any (fun c => ¬ f.columns.contains c) = false) :
    (ingest_lambda_handler ts f s).1.processed =
      (ingestRows ts f.rows).1.length ∧
    ((ingestRows ts f.rows).1.map (fun e => e.1)).Nodup ∧
    (∀ (l1 : List Row) (r : Row) (l2 : List Row) (r2 : Row)
        (k : ItemKey) (it : Item) (k2 : ItemKey) (it2 : Item),
      f.rows = l1 ++ r :: l2 → r2 ∈ l2 →
      buildItem ts r = some (k, it) → buildItem ts r2 = some (k2, it2) →
      k2 = k →
      (ingest_lambda_handler ts f s).1.processed +
          (ingest_lambda_handler ts f s).1.errors < f.rows.length) := by
  rw [ingest_run ts f s hflag hcols]
  refine ⟨rfl, fold_nodup_keys ts f.rows ([], 0) (by simp), ?_⟩
  intro l1 r l2 r2 k it k2 it2 hrows hmem hb hb2 hkk
  rw [hrows]
  unfold ingestRows
  rw [List.foldl_append, List.foldl_cons]
  have hA := fold_len_err_le ts l1 ([], 0)
  have hB := step_len_err_le ts (List.foldl (ingestStep ts) ([], 0) l1) r
  have hkB : k ∈ (ingestStep ts (List.foldl (ingestStep ts) ([], 0) l1) r).1.map
      (fun e => e.1) := by
    simp only [ingestStep, hb]
    exact mem_keys_insertUnique _ _ _
  have hstrict := fold_strict ts l2
    (ingestStep ts (List.foldl (ingestStep ts) ([], 0) l1) r) r2 k2 it2 hmem hb2
    (hkk ▸ hkB)
  simp only [List.length_append, List.length_cons, List.length_nil] at *
  omega

set_option maxRecDepth 100000 in
/-- C10 witness: a two-row file whose valid rows share one composite key
reports `processed + errors` strictly below its row count. -/
theorem statistics_count_unique_keys_witness :
    (ingest_lambda_handler "T" (mkFile [mkRow "p" "i" "c" "d" (RawValue.numVal 1),
        mkRow "p" "i" "c" "d" (RawValue.numVal 2)]) []).1.processed +
      (ingest_lambda_handler "T" (mkFile [mkRow "p" "i" "c" "d" (RawValue.numVal 1),
        mkRow "p" "i" "c" "d" (RawValue.numVal 2)]) []).1.errors <
      (mkFile [mkRow "p" "i" "c" "d" (RawValue.numVal 1),
        mkRow "p" "i" "c" "d" (RawValue.numVal 2)]).rows.length := by
  cases hb : buildItem "T" (mkRow "p" "i" "c" "d" (RawValue.numVal 1)) with
  | none => exact absurd hb (by decide)
  | some kit =>
    cases hb2 : buildItem "T" (mkRow "p" "i" "c" "d" (RawValue.numVal 2)) with
    | none => exact absurd hb2 (by decide)
    | some kit2 =>
      have h1 : (buildItem "T" (mkRow "p" "i" "c" "d" (RawValue.numVal 1))).map
          Prod.fst = some ("p", "i#c") := by decide
      have h2 : (buildItem "T" (mkRow "p" "i" "c" "d" (RawValue.numVal 2))).map
          Prod.fst = some ("p", "i#c") := by decide
      rw [hb] at h1
      rw [hb2] at h2
      simp only [Option.map_some', Option.some.injEq] at h1 h2
      exact (statistics_count_unique_keys "T"
          (mkFile [mkRow "p" "i" "c" "d" (RawValue.numVal 1),
            mkRow "p" "i" "c" "d" (RawValue.numVal 2)]) [] rfl (by decide)).2.2
        [] (mkRow "p" "i" "c" "d" (RawValue.numVal 1))
        [mkRow "p" "i" "c" "d" (RawValue.numVal 2)]
        (mkRow "p" "i" "c" "d" (RawValue.numVal 2))
        kit.1 kit.2 kit2.1 kit2.2
        rfl (List.mem_singleton.mpr rfl) (by rw [hb]) (by rw [hb2])
        (h2.trans h1.symm)

/-- An item one of whose attributes the serializer rejects fails the
whole-item serializability check. -/
theorem serializableItem_false_of_attr (it : Item) (t : String) (v : AttrVal)
    (hv : serializableVal v = false) (h : getAttr it t = some v) :
    serializableItem it = false := by
  cases hf : it.find? (fun e => e.1 = t) with
  | none => rw [getAttr, hf] at h; cases h
  | some e =>
    have hmem := List.mem_of_find?_eq_some hf
    have hev : e.2 = v := by
      rw [getAttr, hf] at h
      simpa using h
    cases hser : serializableItem it with
    | false => rfl
    | true =>
      exfalso
      have hall := List.all_eq_true.mp hser e hmem
      rw [hev, hv] at hall
      cases hall

/-- In an item the store client accepts for writing, no attribute is a
non-finite decimal. -/
theorem serializable_no_nonfinite (it : Item)
    (h : serializableItem it = true) (t : String) :
    getAttr it t ≠ some AttrVal.nInf ∧
    getAttr it t ≠ some AttrVal.nNegInf ∧
    getAttr it t ≠ some AttrVal.nNaN := by
  refine ⟨fun hc => ?_, fun hc => ?_, fun hc => ?_⟩
  · have hfalse := serializableItem_false_of_attr it t AttrVal.nInf rfl hc
    rw [h] at hfalse
    cases hfalse
  · have hfalse := serializableItem_false_of_attr it t AttrVal.nNegInf rfl hc
    rw [h] at hfalse
    cases hfalse
  · have hfalse := serializableItem_false_of_attr it t AttrVal.nNaN rfl hc
    rw [h] at hfalse
    cases hfalse

/-- C3 (amended): in an accepted row, a float NaN or Infinity cell and
an unparsable non-empty cell are stored as decimal zero; a finite
convertible cell is stored exactly; an absent or empty cell leaves the
attribute out of the record (rather than storing zero); and a non-empty
string cell that `Decimal` parses to a non-finite value is stored into
the built item as that non-finite decimal — such an item is then
rejected by the store client, so it never reaches the record store, and
any item the store does accept carries no NaN or Infinity. -/
theorem numeric_field_storage (ts : String) (r : Row) (k : ItemKey)
    (it : Item) (hb : buildItem ts r = some (k, it))
    (f : String) (hf : f ∈ numericFields) :
    ((rawGet r f = RawValue.nanVal ∨ rawGet r f = RawValue.infVal ∨
        (∃ v, rawGet r f = RawValue.badStr v)) →
      getAttr it (sanitizeFieldName f) = some (AttrVal.n 0)) ∧
    (∀ q, rawGet r f = RawValue.numVal q →
      getAttr it (sanitizeFieldName f) = some (AttrVal.n q)) ∧
    ((rawGet r f = RawValue.missing ∨ rawGet r f = RawValue.emptyStr) →
      getAttr it (sanitizeFieldName f) = none) ∧
    (rawGet r f = RawValue.infStr →
      getAttr it (sanitizeFieldName f) = some AttrVal.nInf ∧
      serializableItem it = false) ∧
    (rawGet r f = RawValue.negInfStr →
      getAttr it (sanitizeFieldName f) = some AttrVal.nNegInf ∧
      serializableItem it = false) ∧
    (rawGet r f = RawValue.nanStr →
      getAttr it (sanitizeFieldName f) = some AttrVal.nNaN ∧
      serializableItem it = false) ∧
    (serializableItem it = true → ∀ t,
      getAttr it t ≠ some AttrVal.nInf ∧
      getAttr it t ≠ some AttrVal.nNegInf ∧
      getAttr it t ≠ some AttrVal.nNaN) := by
  have h := getAttr_buildItem_numeric ts r k it hb f hf
  refine ⟨?_, ?_, ?_, ?_, ?_, ?_, ?_⟩
  · rintro (hr | hr | ⟨v, hr⟩) <;> rw [h, hr] <;> rfl
  · intro q hr
    rw [h, hr]
    rfl
  · rintro (hr | hr) <;> rw [h, hr] <;> rfl
  · intro hr
    have hg : getAttr it (sanitizeFieldName f) = some AttrVal.nInf := by
      rw [h, hr]; rfl
    exact ⟨hg, serializableItem_false_of_attr it (sanitizeFieldName f)
      AttrVal.nInf rfl hg⟩
  · intro hr
    have hg : getAttr it (sanitizeFieldName f) = some AttrVal.nNegInf := by
      rw [h, hr]; rfl
    exact ⟨hg, serializableItem_false_of_attr it (sanitizeFieldName f)
      AttrVal.nNegInf rfl hg⟩
  · intro hr
    have hg : getAttr it (sanitizeFieldName f) = some AttrVal.nNaN := by
      rw [h, hr]; rfl
    exact ⟨hg, serializableItem_false_of_attr it (sanitizeFieldName f)
      AttrVal.nNaN rfl hg⟩
  · intro hs t
    exact serializable_no_nonfinite it hs t

set_option maxRecDepth 100000 in
/-- C3 counterexample: a row whose `cost_before_tax` cell is the empty
string is accepted, but the built record carries no `cost_before_tax`
attribute at all — the empty value is not stored as decimal zero. -/
theorem numeric_empty_not_zero_counterexample :
    (buildItem "T" (mkRow "p" "i" "c" "d" RawValue.emptyStr)).map
        (fun e => getAttr e.2 "cost_before_tax") = some none ∧
    some none ≠ some (some (AttrVal.n 0)) := by
  exact ⟨by decide, by decide⟩

set_option maxRecDepth 100000 in
/-- C3 witness: a NaN cell of an accepted concrete row is stored as
decimal zero, a convertible 5/2 cell is stored exactly, an empty-string
cell leaves the attribute out, and an `inf`-style string cell is stored
as Decimal Infinity in an item the store client refuses to write. -/
theorem numeric_field_storage_witness :
    (buildItem "T" (mkRow "p" "i" "c" "d" RawValue.nanVal)).map
        (fun e => getAttr e.2 (sanitizeFieldName "cost_before_tax")) =
      some (some (AttrVal.n 0)) ∧
    (buildItem "T" (mkRow "p" "i" "c" "d" (RawValue.numVal (5/2)))).map
        (fun e => getAttr e.2 (sanitizeFieldName "cost_before_tax")) =
      some (some (AttrVal.n (5/2))) ∧
    (buildItem "T" (mkRow "p" "i" "c" "d" RawValue.emptyStr)).map
        (fun e => getAttr e.2 (sanitizeFieldName "cost_before_tax")) =
      some none ∧
    (buildItem "T" (mkRow "p" "i" "c" "d" RawValue.infStr)).map
        (fun e => getAttr e.2 (sanitizeFieldName "cost_before_tax")) =
      some (some AttrVal.nInf) ∧
    (buildItem "T" (mkRow "p" "i" "c" "d" RawValue.infStr)).map
        (fun e => serializableItem e.2) = some false := by
  refine ⟨?_, ?_, ?_, ?_⟩
  · cases hb : buildItem "T" (mkRow "p" "i" "c" "d" RawValue.nanVal) with
    | none => exact absurd hb (by decide)
    | some kit =>
      have h := (numeric_field_storage "T" (mkRow "p" "i" "c" "d" RawValue.nanVal)
        kit.1 kit.2 (by rw [hb]) "cost_before_tax" (by decide)).1
        (Or.inl (by decide))
      simp [h]
  · cases hb : buildItem "T" (mkRow "p" "i" "c" "d" (RawValue.numVal (5/2))) with
    | none => exact absurd hb (by decide)
    | some kit =>
      have h := (numeric_field_storage "T"
        (mkRow "p" "i" "c" "d" (RawValue.numVal (5/2)))
        kit.1 kit.2 (by rw [hb]) "cost_before_tax" (by decide)).2.1
        (5/2) (by decide)
      simp [h]
  · cases hb : buildItem "T" (mkRow "p" "i" "c" "d" RawValue.emptyStr) with
    | none => exact absurd hb (by decide)
    | some kit =>
      have h := (numeric_field_storage "T"
        (mkRow "p" "i" "c" "d" RawValue.emptyStr)
        kit.1 kit.2 (by rw [hb]) "cost_before_tax" (by decide)).2.2.1
        (Or.inr (by decide))
      simp [h]
  · cases hb : buildItem "T" (mkRow "p" "i" "c" "d" RawValue.infStr) with
    | none => exact absurd hb (by decide)
    | some kit =>
      have h := (numeric_field_storage "T"
        (mkRow "p" "i" "c" "d" RawValue.infStr)
        kit.1 kit.2 (by rw [hb]) "cost_before_tax" (by decide)).2.2.2.1
        (by decide)
      exact ⟨by simp [h.1], by simp [h.2]⟩

/-- C4 (amended): the summary of a non-empty result list reports the
exact distinct-value counts of the four fields, and a `total_cost` that
is Python `round(x, 2)` of the binary64 float accumulation of the
`cost_before_tax` values — which agrees with the exact decimal sum
rounded to two places on exactly representable values such as 100.50
and 50.25.  An empty list yields the empty summary, not an error. -/
theorem summarize_data_spec :
    summarize_data [] = none ∧
    (∀ (items : List Item) (sm : Summary), summarize_data items = some sm →
      sm.unique_accounts =
        ((items.filterMap (fun it => getAttr it "payer_account_id")).toFinset).card ∧
      sm.unique_invoices =
        ((items.filterMap (fun it => getAttr it "invoice_id")).toFinset).card ∧
      sm.unique_dates =
        ((items.filterMap (fun it =>
          getAttr it "bill_period_start_date")).toFinset).card ∧
      sm.unique_products =
        ((items.filterMap (fun it => getAttr it "product_code")).toFinset).card ∧
      sm.total_cost = pyRound2 (totalCostFloat items)) := by
  constructor
  · rfl
  · intro items sm hsm
    cases items with
    | nil => cases hsm
    | cons a l =>
      simp only [summarize_data, List.isEmpty_cons, Bool.false_eq_true,
        if_false, Option.some.injEq] at hsm
      subst hsm
      refine ⟨?_, ?_, ?_, ?_, rfl⟩ <;>
        rw [List.card_toFinset] <;> rfl

set_option maxRecDepth 1000000 in
/-- C4 counterexample: costs 2.675 and 1e-16 have exact decimal sum
2.6750000000000001, which rounds to 2.68 at two places under any
nearest-rounding rule; the float accumulation of summarize_data yields
the float 2.67 instead. -/
theorem summarize_total_cost_counterexample :
    decRound2 ((2675/1000 : ℚ) + 1/10^16) = 268/100 ∧
    (summarize_data [[("cost_before_tax", AttrVal.n (2675/1000))],
        [("cost_before_tax", AttrVal.n (1/10^16))]]).map Summary.total_cost ≠
      some (268/100) := by
  exact ⟨by decide, by decide⟩

set_option maxRecDepth 1000000 in
/-- C4 witness: the summary of two records with distinct accounts and
representable costs 100.50 and 50.25 reports two distinct accounts and
total cost 150.75, the exact decimal sum rounded to two places. -/
theorem summarize_data_spec_witness :
    ∃ sm, summarize_data
        [[("payer_account_id", AttrVal.s "A"),
          ("cost_before_tax", AttrVal.n (201/2))],
         [("payer_account_id", AttrVal.s "B"),
          ("cost_before_tax", AttrVal.n (201/4))]] = some sm ∧
      sm.unique_accounts =
        ((([[("payer_account_id", AttrVal.s "A"),
          ("cost_before_tax", AttrVal.n (201/2))],
         [("payer_account_id", AttrVal.s "B"),
          ("cost_before_tax", AttrVal.n (201/4))]] : List Item).filterMap
            (fun it => getAttr it "payer_account_id")).toFinset).card ∧
      sm.unique_accounts = 2 ∧
      sm.total_cost = 603/4 ∧
      decRound2 (201/2 + 201/4) = 603/4 := by
  cases hsm : summarize_data
      [[("payer_account_id", AttrVal.s "A"),
        ("cost_before_tax", AttrVal.n (201/2))],
       [("payer_account_id", AttrVal.s "B"),
        ("cost_before_tax", AttrVal.n (201/4))]] with
  | none => exact absurd hsm (by decide)
  | some sm =>
    refine ⟨sm, rfl, (summarize_data_spec.2 _ sm hsm).1, ?_, ?_, by decide⟩
    · have h := congrArg (fun o => o.map Summary.unique_accounts) hsm
      simp only [Option.map_some'] at h
      have h2 : (summarize_data
          [[("payer_account_id", AttrVal.s "A"),
            ("cost_before_tax", AttrVal.n (201/2))],
           [("payer_account_id", AttrVal.s "B"),
            ("cost_before_tax", AttrVal.n (201/4))]]).map Summary.unique_accounts
          = some 2 := by decide
      rw [h] at h2
      exact Option.some_inj.mp h2
    · have h := congrArg (fun o => o.map Summary.total_cost) hsm
      simp only [Option.map_some'] at h
      have h2 : (summarize_data
          [[("payer_account_id", AttrVal.s "A"),
            ("cost_before_tax", AttrVal.n (201/2))],
           [("payer_account_id", AttrVal.s "B"),
            ("cost_before_tax", AttrVal.n (201/4))]]).map Summary.total_cost
          = some (603/4) := by decide
      rw [h] at h2
      exact Option.some_inj.mp h2

/-- The JSON encoder keeps keys and maps each value through
`encodeVal`. -/
theorem getAttr_encodeItem (it : Item) (k : String) :
    getAttr (encodeItem it) k = (getAttr it k).map encodeVal := by
  induction it with
  | nil => rfl
  | cons e rest ih =>
    obtain ⟨k0, v0⟩ := e
    unfold encodeItem at *
    by_cases h : k0 = k
    · simp only [List.map_cons]
      unfold getAttr
      rw [List.find?_cons_of_pos _ (by simpa using h),
        List.find?_cons_of_pos _ (by simpa using h)]
      rfl
    · simp only [List.map_cons]
      unfold getAttr at *
      rw [List.find?_cons_of_neg _ (by simpa using h),
        List.find?_cons_of_neg _ (by simpa using h)]
      exact ih

/-- C5 (amended): the by-invoice query returns exactly the stored items
whose `invoice_id` equals the requested one, unchanged; the JSON
response then maps every decimal attribute `q` to the binary64 value
nearest to `q` and leaves string attributes intact, so all values are
returned exactly whenever each decimal is binary64-representable. -/
theorem invoice_roundtrip (store : Store) (p : QueryParams) (inv : String)
    (hp : p.invoiceId = some inv) (hne : inv ≠ "") :
    query_by_invoice_items store p =
      Except.ok ((storeItems store).filter
        (fun it => attrIs it "invoice_id" inv), 1) ∧
    (∀ it k q, getAttr it k = some (AttrVal.n q) →
      getAttr (encodeItem it) k = some (AttrVal.n (nearestDouble q))) ∧
    (∀ it k v, getAttr it k = some (AttrVal.s v) →
      getAttr (encodeItem it) k = some (AttrVal.s v)) ∧
    (∀ it : Item, (∀ k q, (k, AttrVal.n q) ∈ it → nearestDouble q = q) →
      encodeItem it = it) := by
  refine ⟨?_, ?_, ?_, ?_⟩
  · unfold query_by_invoice_items
    rw [if_neg (by simp [isBlank, hp, hne]), hp]
    rfl
  · intro it k q h
    rw [getAttr_encodeItem, h]
    rfl
  · intro it k v h
    rw [getAttr_encodeItem, h]
    rfl
  · intro it h
    induction it with
    | nil => rfl
    | cons e rest ih =>
      obtain ⟨k0, v0⟩ := e
      unfold encodeItem at *
      simp only [List.map_cons]
      rw [ih (fun k q hm => h k q (List.mem_cons_of_mem _ hm))]
      cases v0 with
      | n q =>
        have hq := h k0 q (List.mem_cons_self _ _)
        simp [encodeVal, hq]
      | s v => rfl
      | l vs => rfl
      | nInf => rfl
      | nNegInf => rfl
      | nNaN => rfl

/-- The item produced by ingesting the 2.675-cost row, as stored. -/
def cxInvoiceItem : Item :=
  [("payer_account_id", AttrVal.s "p"),
   ("invoice_id#product_code", AttrVal.s "INV1#EC2"),
   ("bill_period_start_date", AttrVal.s "2023-01-01"),
   ("invoice_id", AttrVal.s "INV1"),
   ("product_code", AttrVal.s "EC2"),
   ("cost_before_tax", AttrVal.n (2675/1000)),
   ("upload_timestamp", AttrVal.s "T")]

set_option maxRecDepth 1000000 in
/-- C5 counterexample: a record written by ingestion with decimal cost
2.675 is returned by the by-invoice query, but the JSON encoding maps
that attribute to the nearest binary64 float, which differs from the
stored decimal — precision is not preserved through the response. -/
theorem invoice_roundtrip_counterexample :
    query_by_invoice_items
        (ingest_lambda_handler "T" (mkFile [mkRow "p" "INV1" "EC2" "2023-01-01"
          (RawValue.numVal (2675/1000))]) []).2.2
        { noParams with invoiceId := some "INV1" } =
      Except.ok ([cxInvoiceItem], 1) ∧
    getAttr cxInvoiceItem "cost_before_tax" = some (AttrVal.n (2675/1000)) ∧
    getAttr (encodeItem cxInvoiceItem) "cost_before_tax" =
      some (AttrVal.n (nearestDouble (2675/1000))) ∧
    nearestDouble (2675/1000) ≠ 2675/1000 := by
  exact ⟨by decide, by decide, by decide, by decide⟩

set_option maxRecDepth 1000000 in
/-- C5 witness: a one-record store queried by its invoice id, whose only
decimal value 100.50 is binary64-representable, comes back exactly. -/
theorem invoice_roundtrip_witness :
    query_by_invoice_items
        [(("p", "INV1#EC2"),
          [("invoice_id", AttrVal.s "INV1"),
           ("cost_before_tax", AttrVal.n (201/2))])]
        { noParams with invoiceId := some "INV1" } =
      Except.ok ((storeItems
        [(("p", "INV1#EC2"),
          [("invoice_id", AttrVal.s "INV1"),
           ("cost_before_tax", AttrVal.n (201/2))])]).filter
        (fun it => attrIs it "invoice_id" "INV1"), 1) ∧
    getAttr (encodeItem [("invoice_id", AttrVal.s "INV1"),
        ("cost_before_tax", AttrVal.n (201/2))]) "cost_before_tax" =
      some (AttrVal.n (nearestDouble (201/2))) ∧
    getAttr (encodeItem [("invoice_id", AttrVal.s "INV1"),
        ("cost_before_tax", AttrVal.n (201/2))]) "invoice_id" =
      some (AttrVal.s "INV1") ∧
    encodeItem [("invoice_id", AttrVal.s "INV1"),
      ("cost_before_tax", AttrVal.n (201/2))] =
      [("invoice_id", AttrVal.s "INV1"),
       ("cost_before_tax", AttrVal.n (201/2))] := by
  have h := invoice_roundtrip
    [(("p", "INV1#EC2"),
      [("invoice_id", AttrVal.s "INV1"),
       ("cost_before_tax", AttrVal.n (201/2))])]
    { noParams with invoiceId := some "INV1" } "INV1" rfl (by decide)
  refine ⟨h.1, h.2.1 _ "cost_before_tax" (201/2) (by decide),
    h.2.2.1 _ "invoice_id" "INV1" (by decide), ?_⟩
  refine h.2.2.2 _ ?_
  intro k q hm
  simp only [List.mem_cons, List.mem_singleton] at hm
  rcases hm with hm | hm | hm
  · cases hm
  · have hq : q = 201/2 := by
      have := congrArg Prod.snd hm
      simpa using this
    rw [hq]
    decide
  · cases hm

/-- Totality of the lexicographic character-list comparison. -/
theorem lexLeChars_total : ∀ a b : List Char,
    lexLeChars a b = true ∨ lexLeChars b a = true := by
  intro a
  induction a with
  | nil => intro b; left; rfl
  | cons c as ih =>
    intro b
    cases b with
    | nil => right; rfl
    | cons d bs =>
      rcases lt_trichotomy c d with h | h | h
      · left; simp [lexLeChars, h]
      · subst h
        simpa [lexLeChars, lt_irrefl] using ih bs
      · right; simp [lexLeChars, h]

/-- Transitivity of the lexicographic character-list comparison. -/
theorem lexLeChars_trans : ∀ a b c : List Char,
    lexLeChars a b = true → lexLeChars b c = true →
    lexLeChars a c = true := by
  intro a
  induction a with
  | nil => intro b c h1 h2; rfl
  | cons x as ih =>
    intro b c h1 h2
    cases b with
    | nil => cases h1
    | cons y bs =>
      cases c with
      | nil => cases h2
      | cons z cs =>
        simp only [lexLeChars] at h1 h2 ⊢
        rcases lt_trichotomy x y with hxy | hxy | hxy
        · by_cases hyz : y < z
          · simp [lt_trans hxy hyz]
          · by_cases hzy : z < y
            · rw [if_neg hyz, if_pos hzy] at h2; cases h2
            · have he : y = z := le_antisymm (not_lt.mp hzy) (not_lt.mp hyz)
              subst he
              simp [hxy]
        · subst hxy
          rw [if_neg (lt_irrefl x), if_neg (lt_irrefl x)] at h1
          by_cases hyz : x < z
          · simp [hyz]
          · by_cases hzy : z < x
            · rw [if_neg hyz, if_pos hzy] at h2; cases h2
            · have he : x = z := le_antisymm (not_lt.mp hzy) (not_lt.mp hyz)
              subst he
              rw [if_neg (lt_irrefl x), if_neg (lt_irrefl x)] at h2 ⊢
              exact ih bs cs h1 h2
        · rw [if_neg (lt_asymm hxy), if_pos hxy] at h1; cases h1

theorem strLe_total (a b : String) : strLe a b = true ∨ strLe b a = true :=
  lexLeChars_total a.data b.data

theorem strLe_trans {a b c : String} (h1 : strLe a b = true)
    (h2 : strLe b c = true) : strLe a c = true :=
  lexLeChars_trans a.data b.data c.data h1 h2

theorem insertSorted_perm (x : String) (l : List String) :
    List.Perm (insertSorted x l) (x :: l) := by
  induction l with
  | nil => rfl
  | cons y ys ih =>
    unfold insertSorted
    by_cases h : strLe x y
    · rw [if_pos h]
    · rw [if_neg h]
      exact (List.Perm.cons y ih).trans (List.Perm.swap x y ys)

theorem sortStrings_perm (l : List String) : List.Perm (sortStrings l) l := by
  induction l with
  | nil => rfl
  | cons x xs ih =>
    exact (insertSorted_perm x (sortStrings xs)).trans (List.Perm.cons x ih)

theorem insertSorted_sorted (x : String) (l : List String)
    (h : l.Pairwise (fun a b => strLe a b = true)) :
    (insertSorted x l).Pairwise (fun a b => strLe a b = true) := by
  induction l with
  | nil => simp [insertSorted]
  | cons y ys ih =>
    rw [List.pairwise_cons] at h
    unfold insertSorted
    by_cases hxy : strLe x y
    · rw [if_pos hxy]
      rw [List.pairwise_cons]
      refine ⟨?_, List.pairwise_cons.mpr h⟩
      intro z hz
      rcases List.mem_cons.mp hz with rfl | hz2
      · exact hxy
      · exact strLe_trans hxy (h.1 z hz2)
    · rw [if_neg hxy]
      rw [List.pairwise_cons]
      refine ⟨?_, ih h.2⟩
      intro z hz
      rcases List.mem_cons.mp ((insertSorted_perm x ys).mem_iff.mp hz)
        with rfl | hz2
      · rcases strLe_total z y with ht | ht
        · exact absurd ht hxy
        · exact ht
      · exact h.1 z hz2

theorem sortStrings_sorted (l : List String) :
    (sortStrings l).Pairwise (fun a b => strLe a b = true) := by
  induction l with
  | nil => exact List.Pairwise.nil
  | cons x xs ih => exact insertSorted_sorted x (sortStrings xs) ih

/-- C7: the CSV header is exactly the union of the keys of the returned
records; the priority columns that occur come first, in their fixed
order, and the remaining keys follow sorted in (Python) lexicographic
order, each column exactly once. -/
theorem csv_fieldnames_spec (items : List Item) :
    (∀ x, x ∈ format_csv_fieldnames items ↔ x ∈ allKeysOf items) ∧
    (format_csv_fieldnames items).Nodup ∧
    format_csv_fieldnames items =
      priorityColumns.filter (fun c => (allKeysOf items).contains c) ++
        sortStrings ((allKeysOf items).filter
          (fun k => ¬ priorityColumns.contains k)) ∧
    List.Perm
      (sortStrings ((allKeysOf items).filter
        (fun k => ¬ priorityColumns.contains k)))
      ((allKeysOf items).filter (fun k => ¬ priorityColumns.contains k)) ∧
    (sortStrings ((allKeysOf items).filter
      (fun k => ¬ priorityColumns.contains k))).Pairwise
        (fun a b => strLe a b = true) := by
  have hnodupAll : (allKeysOf items).Nodup := List.nodup_dedup _
  refine ⟨?_, ?_, rfl, sortStrings_perm _, sortStrings_sorted _⟩
  · intro x
    simp only [format_csv_fieldnames, List.mem_append, List.mem_filter,
      (sortStrings_perm _).mem_iff]
    constructor
    · rintro (⟨hp, hc⟩ | ⟨hk, hnp⟩)
      · simpa using hc
      · exact hk
    · intro hx
      by_cases hp : x ∈ priorityColumns
      · left
        exact ⟨hp, by simpa using hx⟩
      · right
        exact ⟨hx, by simpa using hp⟩
  · apply List.Nodup.append
    · exact List.Nodup.filter _ (by decide)
    · exact ((sortStrings_perm _).nodup_iff).mpr (List.Nodup.filter _ hnodupAll)
    · intro x hx1 hx2
      rw [List.mem_filter] at hx1
      rw [(sortStrings_perm _).mem_iff, List.mem_filter] at hx2
      have h1 : x ∈ priorityColumns := hx1.1
      have h2 : x ∉ priorityColumns := by simpa using hx2.2
      exact h2 h1

theorem ufind_map_replace_eq (m : UStore) (e : String) (ids : List String)
    (hmem : m.any (fun x => x.1 = e) = true) :
    (m.map (fun x => if x.1 = e then (e, ids) else x)).find?
        (fun x => x.1 = e) = some (e, ids) := by
  induction m with
  | nil => cases hmem
  | cons y m ih =>
    by_cases hy : y.1 = e
    · simp only [List.map_cons]
      rw [if_pos hy]
      rw [List.find?_cons_of_pos _ (by simp)]
    · have hm : m.any (fun x => x.1 = e) = true := by
        simpa [hy] using hmem
      simp only [List.map_cons]
      rw [if_neg hy]
      rw [List.find?_cons_of_neg _ (by simpa using hy)]
      exact ih hm

/-- Lookup after a user-record put: the email now maps to exactly the
new list, whatever was stored before. -/
theorem lookup_putUser (s : UStore) (e : String) (ids : List String) :
    (putUser s e ids).find? (fun x => x.1 = e) = some (e, ids) := by
  by_cases hany : s.any (fun x => x.1 = e)
  · unfold putUser
    rw [if_pos hany]
    exact ufind_map_replace_eq s e ids hany
  · unfold putUser
    rw [if_neg hany]
    rw [List.find?_append]
    have hnone : s.find? (fun x => decide (x.1 = e)) = none := by
      rw [List.find?_eq_none]
      intro x hx
      simpa using fun hxe => hany (List.any_eq_true.mpr ⟨x, hx, by simpa using hxe⟩)
    rw [hnone]
    simp

/-- C8: a valid user-access row (both columns present, non-empty after
trimming, email containing `@`) fully replaces that email's record with
the `;`-split, per-element-trimmed account list, in source order and
without deduplication; looking the email up afterwards returns exactly
that list. -/
theorem user_row_replaces (st : UStore) (row : UserRow) (ev pv : String)
    (he : row.email = some ev) (hp : row.payer_account_id = some pv)
    (hene : trimChars ev ≠ "") (hpne : trimChars pv ≠ "")
    (hat : containsChar (trimChars ev) '@' = true) :
    processUserRow st row =
      putUser st (trimChars ev) (splitAccountIds (trimChars pv)) ∧
    update_user_info_handler st [row] =
      putUser st (trimChars ev) (splitAccountIds (trimChars pv)) ∧
    get_user_accounts_handler (processUserRow st row) (some (trimChars ev)) =
      UserLookupResult.ok (trimChars ev) (splitAccountIds (trimChars pv)) := by
  have h1 : processUserRow st row =
      putUser st (trimChars ev) (splitAccountIds (trimChars pv)) := by
    unfold processUserRow
    rw [he, hp]
    simp only [hene, hpne, hat]
    rw [if_neg (by simp [hene, hpne])]
    rw [if_neg (by simp)]
  refine ⟨h1, h1, ?_⟩
  rw [h1]
  unfold get_user_accounts_handler
  rw [if_neg (by simp [isBlank, hene])]
  simp only [Option.getD_some]
  rw [lookup_putUser]

set_option maxRecDepth 100000 in
/-- C8 witness: uploading `a@b.com ↦ ACC1;ACC2`, then re-uploading
`a@b.com ↦ ACC3`, leaves the lookup returning exactly `[ACC3]`. -/
theorem user_row_replaces_witness :
    get_user_accounts_handler
        (processUserRow
          (update_user_info_handler []
            [{ email := some "a@b.com", payer_account_id := some "ACC1;ACC2" }])
          { email := some "a@b.com", payer_account_id := some "ACC3" })
        (some (trimChars "a@b.com")) =
      UserLookupResult.ok (trimChars "a@b.com")
        (splitAccountIds (trimChars "ACC3")) ∧
    splitAccountIds (trimChars "ACC3") = ["ACC3"] ∧
    trimChars "a@b.com" = "a@b.com" ∧
    get_user_accounts_handler
        (update_user_info_handler []
          [{ email := some "a@b.com", payer_account_id := some "ACC1;ACC2" }])
        (some "a@b.com") = UserLookupResult.ok "a@b.com" ["ACC1", "ACC2"] :=
  ⟨(user_row_replaces
      (update_user_info_handler []
        [{ email := some "a@b.com", payer_account_id := some "ACC1;ACC2" }])
      { email := some "a@b.com", payer_account_id := some "ACC3" }
      "a@b.com" "ACC3" rfl rfl (by decide) (by decide) (by decide)).2.2,
   by decide, by decide, by decide⟩
